import Mathlib

/-!
Verification of the Nominal Protocol name registry.

The repository contains two implementations of the same protocol:
  * `src/NEAR/src/lib.rs` — a NEAR contract (`NominalRegistry`), modelled in
    namespace `Near`;
  * `src/programs/nominal-registry/src/lib.rs` — a Solana/Anchor program
    (`nominal_registry`), modelled in namespace `Sol`.

Conventions of the shallow embedding:
  * `AccountId` (NEAR) is a `String`; `Pubkey` (Solana) is a `Nat`, with
    `Pubkey::default()` modelled as `0`.
  * Machine integers (`u64`, `u128`, `Balance`) are `Nat`.  NEAR contracts are
    built with checked arithmetic, so an in-range computation is exact and an
    overflow aborts the transaction (modelled by the `Except` error path never
    producing a wrong value); the one explicit truncating cast in the source,
    Solana's `as u64`, is modelled as `% 2 ^ 64`.  The `<<` of `name_key`
    discards high bits in Rust, so the whole djb2 step is taken `% 2 ^ 64`.
  * `LookupMap`/`UnorderedMap` (NEAR) and the PDA-addressed accounts (Solana)
    are association lists with `alGet`/`alInsert`/`alRemove`.
  * A contract call either succeeds with the new state or aborts with an
    error; on abort the host reverts every storage write of the call, so a
    call is a function `State → Except Err State` and an `.error` result
    leaves the caller's state untouched.
  * Rust `str` values are Lean `String`s.  `str::len`/`as_bytes` operate on
    the UTF-8 bytes, modelled by `strBytes` (real UTF-8 encoding);
    `str::chars` is `String.data`.
-/

/-- Association-list lookup, mirroring `LookupMap::get`. -/
def alGet {α β : Type} [DecidableEq α] : List (α × β) → α → Option β
  | [], _ => none
  | (k, v) :: rest, key => if k = key then some v else alGet rest key

/-- Association-list insert-or-overwrite, mirroring `LookupMap::insert`. -/
def alInsert {α β : Type} [DecidableEq α] (l : List (α × β)) (key : α) (v : β) :
    List (α × β) :=
  match l with
  | [] => [(key, v)]
  | (k, w) :: rest => if k = key then (key, v) :: rest else (k, w) :: alInsert rest key v

/-- Association-list removal, mirroring `LookupMap::remove`. -/
def alRemove {α β : Type} [DecidableEq α] (l : List (α × β)) (key : α) : List (α × β) :=
  match l with
  | [] => []
  | (k, w) :: rest => if k = key then rest else (k, w) :: alRemove rest key

theorem alGet_insert_self {α β : Type} [DecidableEq α] (l : List (α × β)) (k : α) (v : β) :
    alGet (alInsert l k v) k = some v := by
  induction l with
  | nil => simp [alInsert, alGet]
  | cons hd tl ih =>
    obtain ⟨k', v'⟩ := hd
    by_cases h : k' = k
    · simp [alInsert, alGet, h]
    · simp [alInsert, alGet, h, ih]

theorem alGet_insert_ne {α β : Type} [DecidableEq α] (l : List (α × β)) (k k' : α) (v : β)
    (h : k ≠ k') : alGet (alInsert l k v) k' = alGet l k' := by
  induction l with
  | nil => simp [alInsert, alGet, h]
  | cons hd tl ih =>
    obtain ⟨k0, v0⟩ := hd
    by_cases h0 : k0 = k
    · subst h0
      simp [alInsert, alGet, h]
    · simp [alInsert, alGet, h0, ih]

theorem alGet_remove_ne {α β : Type} [DecidableEq α] (l : List (α × β)) (k k' : α)
    (h : k ≠ k') : alGet (alRemove l k) k' = alGet l k' := by
  induction l with
  | nil => simp [alRemove]
  | cons hd tl ih =>
    obtain ⟨k0, v0⟩ := hd
    by_cases h0 : k0 = k
    · subst h0
      simp [alRemove, alGet, h]
    · simp [alRemove, alGet, h0, ih]

/-- UTF-8 encoding of a single character (the encoding used by Rust's
`str::as_bytes` / `str::len`). -/
def utf8Bytes (c : Char) : List Nat :=
  let n := c.toNat
  if n < 128 then [n]
  else if n < 2048 then [192 + n / 64, 128 + n % 64]
  else if n < 65536 then [224 + n / 4096, 128 + n / 64 % 64, 128 + n % 64]
  else [240 + n / 262144, 128 + n / 4096 % 64, 128 + n / 64 % 64, 128 + n % 64]

/-- The UTF-8 bytes of a string (Rust `str::as_bytes`). -/
def strBytes (s : String) : List Nat :=
  s.data.flatMap utf8Bytes

theorem utf8Bytes_ascii {c : Char} (h : c.toNat < 128) : utf8Bytes c = [c.toNat] := by
  simp [utf8Bytes, h]

theorem utf8Bytes_nonascii {c : Char} (h : 128 ≤ c.toNat) :
    ∀ b ∈ utf8Bytes c, 128 ≤ b := by
  intro b hb
  simp only [utf8Bytes] at hb
  rw [if_neg (by omega)] at hb
  rcases Nat.lt_or_ge c.toNat 2048 with h2 | h2
  · rw [if_pos h2] at hb
    simp only [List.mem_cons, List.not_mem_nil, or_false] at hb
    rcases hb with hb | hb <;> omega
  · rw [if_neg (by omega)] at hb
    rcases Nat.lt_or_ge c.toNat 65536 with h3 | h3
    · rw [if_pos h3] at hb
      simp only [List.mem_cons, List.not_mem_nil, or_false] at hb
      rcases hb with hb | hb | hb <;> omega
    · rw [if_neg (by omega)] at hb
      simp only [List.mem_cons, List.not_mem_nil, or_false] at hb
      rcases hb with hb | hb | hb | hb <;> omega

theorem flatMap_utf8_ascii {l : List Char} (h : ∀ c ∈ l, c.toNat < 128) :
    l.flatMap utf8Bytes = l.map Char.toNat := by
  induction l with
  | nil => simp
  | cons c rest ih =>
    simp only [List.mem_cons] at h
    rw [List.flatMap_cons, utf8Bytes_ascii (h c (Or.inl rfl)), List.map_cons]
    simp only [List.singleton_append, List.cons.injEq, true_and]
    exact ih (fun x hx => h x (Or.inr hx))

theorem strBytes_eq_map {s : String} (h : ∀ c ∈ s.data, c.toNat < 128) :
    strBytes s = s.data.map Char.toNat :=
  flatMap_utf8_ascii h

deriving instance DecidableEq for Except

set_option maxRecDepth 40000

/-! ### Canonical name-validity facts, stated on UTF-8 byte lists

These are the declarative counterparts of the claim text: alphabet
`a-z`, `0-9`, `-` (bytes 97–122, 48–57, 45), byte length between 3 and 63,
no leading or trailing hyphen, no two adjacent hyphens. -/

/-- A byte is in the registry's name alphabet. -/
def byteAlpha (b : Nat) : Bool :=
  (decide (97 ≤ b) && decide (b ≤ 122)) || (decide (48 ≤ b) && decide (b ≤ 57))
    || decide (b = 45)

/-- The first byte is a hyphen. -/
def headHyphen : List Nat → Bool
  | [] => false
  | b :: _ => decide (b = 45)

/-- The last byte is a hyphen. -/
def lastHyphen : List Nat → Bool
  | [] => false
  | [b] => decide (b = 45)
  | _ :: b :: rest => lastHyphen (b :: rest)

/-- Some two adjacent bytes are both hyphens. -/
def hasAdjHyphen : List Nat → Bool
  | a :: b :: rest => (decide (a = 45) && decide (b = 45)) || hasAdjHyphen (b :: rest)
  | _ => false

/-- The declarative validity predicate of the specification, on a byte list. -/
def specValidBytes (l : List Nat) : Bool :=
  decide (3 ≤ l.length) && decide (l.length ≤ 63) && l.all byteAlpha
    && !headHyphen l && !lastHyphen l && !hasAdjHyphen l

/-- The claim's name-validity predicate: byte length 3–63, alphabet
`a-z`/`0-9`/`-`, no leading or trailing hyphen, no adjacent hyphens. -/
def SpecValidName (s : String) : Prop :=
  specValidBytes (strBytes s) = true

instance (s : String) : Decidable (SpecValidName s) := by
  unfold SpecValidName; infer_instance

namespace Near

/-! ### NEAR contract model (`src/NEAR/src/lib.rs`) -/

/-- `Record` — `src/NEAR/src/lib.rs:23`. -/
structure Record where
  owner : String
  resolved : Option String
  updated_at : Nat
deriving DecidableEq, Repr

/-- The mutable contract state of `NominalRegistry` — `src/NEAR/src/lib.rs:42`.
The maps are association lists; `names` and `nonces` are keyed by the 64-bit
`name_key` hash. -/
structure ContractState where
  owner : String
  treasury : String
  registration_fee : Nat
  referrer_bps : Nat
  names : List (Nat × Record)
  nonces : List (Nat × Nat)
  coin_fees : List (String × Nat)
  primary_names : List (String × String)
  relayers : List (String × Bool)
  require_allowlisted_relayer : Bool
deriving DecidableEq, Repr

/-- Errors: one constructor per distinct `assert!`/`expect` panic message in
the NEAR source.  A panicking call is reverted by the host, so the call
returns the error and the pre-call state is kept. -/
inductive RegErr where
  | invalidName            -- "Invalid name format"
  | nameTaken              -- "Name is already taken"
  | tokenNotAllowed        -- "Token not allowed"
  | insufficientFt         -- "Insufficient FT amount"
  | invalidNonce           -- "Invalid nonce"
  | wrongRelayer           -- "Wrong relayer: sender must match relayer"
  | deadlineExceeded       -- "Deadline exceeded"
  | insufficientDeposit    -- "Insufficient deposit"
  | insufficientFee        -- "Insufficient fee"
  | relayerNotAllowlisted  -- "Relayer not allowlisted"
  | unauthorizedSender     -- "Unauthorized: sender must be owner or relayer"
  | nameNotFound           -- "Name does not exist"
  | notNameOwner           -- "Only the owner can manage this name"
  | unsupportedFtAction    -- "Unsupported FT action"
deriving DecidableEq, Repr

/-- The inner loop of `is_valid_name` — `src/NEAR/src/lib.rs:598-618`.
`len` is the byte length of the whole name, `i` the current index,
`prev_hyphen` the loop-carried flag. -/
def validScan (len : Nat) : List Nat → Nat → Bool → Bool
  | [], _, _ => true
  | b :: rest, i, prev_hyphen =>
    let is_lower := decide (97 ≤ b) && decide (b ≤ 122)
    let is_digit := decide (48 ≤ b) && decide (b ≤ 57)
    let is_hyphen := decide (b = 45)
    if !(is_lower || is_digit || is_hyphen) then false
    else if is_hyphen && (decide (i = 0) || decide (i = len - 1)) then false
    else if is_hyphen && prev_hyphen then false
    else validScan len rest (i + 1) is_hyphen

/-- `is_valid_name` on the byte list of the name — `src/NEAR/src/lib.rs:590-621`. -/
def nearValidBytes (bytes : List Nat) : Bool :=
  if decide (bytes.length < 3) || decide (bytes.length > 63) then false
  else validScan bytes.length bytes 0 false

/-- `is_valid_name` — `src/NEAR/src/lib.rs:590`: operates on `name.as_bytes()`. -/
def is_valid_name (name : String) : Bool :=
  nearValidBytes (strBytes name)

/-- `name_key` — `src/NEAR/src/lib.rs:578-586`: djb2 over the bytes on `u64`
(`<<` discards high bits; the additions stay in range right after, so one
reduction `% 2 ^ 64` per step is the exact wrapping semantics). -/
def name_key (name : String) : Nat :=
  (strBytes name).foldl (fun hash b => (hash * 32 % 2 ^ 64 + hash + b) % 2 ^ 64) 5381

/-- `assert_valid_name` — `src/NEAR/src/lib.rs:555-557`. -/
def assert_valid_name (name : String) : Except RegErr Unit :=
  if is_valid_name name then .ok () else .error .invalidName

/-- `register_record_and_primary` — `src/NEAR/src/lib.rs:444-452`: insert the
`Record` (resolved defaults to the owner) and set the owner's primary name if
they have none. -/
def register_record_and_primary (s : ContractState) (name : String) (owner : String)
    (timestamp : Nat) : ContractState :=
  let key := name_key name
  let record : Record := { owner := owner, resolved := some owner, updated_at := timestamp }
  let s1 := { s with names := alInsert s.names key record }
  if (alGet s1.primary_names owner).isNone then
    { s1 with primary_names := alInsert s1.primary_names owner name }
  else s1

/-- `process_payment` — `src/NEAR/src/lib.rs:455-491`.  Returns the native
transfers issued (receiver, amount); the contract state is not changed. -/
def process_payment (s : ContractState) (deposit : Nat) (meta : Bool)
    (relayer : Option String) : List (String × Nat) :=
  if deposit > 0 then
    if meta then
      let ref_cut := match relayer with
        | some _ => deposit * s.referrer_bps / 10000
        | none => 0
      let to_treasury := deposit - ref_cut
      (match relayer with
       | some r => if ref_cut > 0 then [(r, ref_cut)] else []
       | none => []) ++
      (if to_treasury > 0 then [(s.treasury, to_treasury)] else [])
    else [(s.treasury, deposit)]
  else []

/-- The meta-transaction parameter block of `register_internal` —
`src/NEAR/src/lib.rs:414-431`: relayer must be the actual sender, deadline not
passed, supplied nonce equal to the stored one (then incremented), deposit at
least the signed amount.  A failed `assert!` reverts the whole call, so an
error here discards the nonce write. -/
def meta_validate (s : ContractState) (actor : String) (key : Nat)
    (deposit timestamp : Nat) (relayer : Option String)
    (amount_expected deadline : Nat) (nonce : Option Nat) :
    Except RegErr ContractState :=
  if (match relayer with
      | some relayer_id => decide (relayer_id ≠ actor)
      | none => false) then .error .wrongRelayer
  else if decide (deadline < timestamp) then .error .deadlineExceeded
  else
    match nonce with
    | some n =>
      let current_nonce := (alGet s.nonces key).getD 0
      if current_nonce ≠ n then .error .invalidNonce
      else
        let s1 := { s with nonces := alInsert s.nonces key (current_nonce + 1) }
        if deposit < amount_expected then .error .insufficientDeposit else .ok s1
    | none => if deposit < amount_expected then .error .insufficientDeposit else .ok s

/-- `register_internal` — `src/NEAR/src/lib.rs:390-441`.  Returns the new
state and the native transfers issued by `process_payment`. -/
def register_internal (s : ContractState) (actor name owner : String)
    (deposit timestamp : Nat) (meta : Bool) (relayer : Option String)
    (amount_expected deadline : Nat) (nonce : Option Nat) :
    Except RegErr (ContractState × List (String × Nat)) :=
  if !is_valid_name name then .error .invalidName
  else
    let key := name_key name
    if (alGet s.names key).isSome then .error .nameTaken
    else
      match (if meta then
               meta_validate s actor key deposit timestamp relayer amount_expected
                 deadline nonce
             else .ok s) with
      | .error e => .error e
      | .ok s1 =>
        if deposit < s.registration_fee then .error .insufficientFee
        else
          let s2 := register_record_and_primary s1 name owner timestamp
          .ok (s2, process_payment s2 deposit meta relayer)

/-- `register` — `src/NEAR/src/lib.rs:100-117`: direct native-fee path. -/
def register (s : ContractState) (sender name : String) (deposit timestamp : Nat) :
    Except RegErr (ContractState × List (String × Nat)) :=
  register_internal s sender name sender deposit timestamp false none 0 0 none

/-- `register_with_sig` — `src/NEAR/src/lib.rs:199-237`.  The `signature`
argument is bound but never examined by the source (`_signature`). -/
def register_with_sig (s : ContractState) (sender : String) (deposit timestamp : Nat)
    (name owner relayer : String) (amount deadline nonce : Nat)
    (_signature : List Nat) :
    Except RegErr (ContractState × List (String × Nat)) :=
  if decide (sender ≠ owner) && decide (sender ≠ relayer) then .error .unauthorizedSender
  else if s.require_allowlisted_relayer && !((alGet s.relayers relayer).getD false) then
    .error .relayerNotAllowlisted
  else
    register_internal s sender name owner deposit timestamp true (some relayer)
      amount deadline (some nonce)

/-- The parsed `msg` JSON of `ft_on_transfer` — `src/NEAR/src/lib.rs:131`. -/
structure FtMsg where
  action : String
  name : String
  owner : Option String
  relayer : Option String
  deadline : Option Nat
  nonce : Option Nat
deriving DecidableEq, Repr

/-- The observable outcome of a successful `ft_on_transfer`: the new contract
state, the `ft_transfer` calls issued on the token contract
(receiver, amount), and the unused amount returned for refund. -/
structure FtOutcome where
  state : ContractState
  ftTransfers : List (String × Nat)
  refund : Nat
deriving DecidableEq, Repr

/-- `ft_on_transfer` — `src/NEAR/src/lib.rs:125-197`.  `token_account` is the
predecessor (the FT contract), `now` the block timestamp. -/
def ft_on_transfer (s : ContractState) (token_account sender_id : String)
    (amount : Nat) (parsed : FtMsg) (now : Nat) : Except RegErr FtOutcome :=
  if parsed.action ≠ "register" then .error .unsupportedFtAction
  else
    match alGet s.coin_fees token_account with
    | none => .error .tokenNotAllowed
    | some required =>
      if amount < required then .error .insufficientFt
      else if !is_valid_name parsed.name then .error .invalidName
      else
        let key := name_key parsed.name
        if (alGet s.names key).isSome then .error .nameTaken
        else
          let owner := parsed.owner.getD sender_id
          if s.require_allowlisted_relayer &&
             (match parsed.relayer with
              | some r => !((alGet s.relayers r).getD false)
              | none => false) then .error .relayerNotAllowlisted
          else
            match (match parsed.nonce with
                   | some n =>
                     let current := (alGet s.nonces key).getD 0
                     if current ≠ n then .error .invalidNonce
                     else .ok { s with nonces := alInsert s.nonces key (current + 1) }
                   | none => .ok s : Except RegErr ContractState) with
            | .error e => .error e
            | .ok s1 =>
              let s2 := register_record_and_primary s1 parsed.name owner now
              let ref_cut := match parsed.relayer with
                | some _ => required * s.referrer_bps / 10000
                | none => 0
              let to_treasury := required - ref_cut
              let transfers :=
                (match parsed.relayer with
                 | some r => if ref_cut > 0 then [(r, ref_cut)] else []
                 | none => []) ++
                (if to_treasury > 0 then [(s.treasury, to_treasury)] else [])
              .ok { state := s2, ftTransfers := transfers, refund := amount - required }

/-- The registry state after the `ft_transfer` promises issued by
`ft_on_transfer` resolve.  The contract attaches no callback to them
(`src/NEAR/src/lib.rs:167-178` fires them and returns), so whatever the
settlement outcome, the registry keeps the state committed at issuance
time.  `settlementSucceeded` is therefore unused. -/
def ft_settlement_state (out : FtOutcome) (_settlementSucceeded : Bool) : ContractState :=
  out.state

/-- `transfer_name` — `src/NEAR/src/lib.rs:255-284`. -/
def transfer_name (s : ContractState) (caller name new_owner : String)
    (timestamp : Nat) : Except RegErr ContractState :=
  if !is_valid_name name then .error .invalidName
  else
    let key := name_key name
    match alGet s.names key with
    | none => .error .nameNotFound
    | some record =>
      if record.owner ≠ caller then .error .notNameOwner
      else
        let old_owner := record.owner
        let updated := { record with owner := new_owner, updated_at := timestamp }
        let s1 := { s with names := alInsert s.names key updated }
        let s2 := match alGet s1.primary_names old_owner with
          | some primary_name =>
            if primary_name = name then
              { s1 with primary_names := alRemove s1.primary_names old_owner }
            else s1
          | none => s1
        let s3 := if (alGet s2.primary_names new_owner).isNone then
            { s2 with primary_names := alInsert s2.primary_names new_owner name }
          else s2
        .ok s3

/-- `get_record` — `src/NEAR/src/lib.rs:304-308` (asserts validity, then a
plain lookup). -/
def get_record (s : ContractState) (name : String) : Except RegErr (Option Record) :=
  if !is_valid_name name then .error .invalidName
  else .ok (alGet s.names (name_key name))

/-- `name_of` — `src/NEAR/src/lib.rs:299-301`. -/
def name_of (s : ContractState) (account : String) : Option String :=
  alGet s.primary_names account

end Near

namespace Sol

/-! ### Solana/Anchor program model (`src/programs/nominal-registry/src/lib.rs`)

`Pubkey` is a `Nat` (`Pubkey::default()` = `0`).  PDA bump seeds are
account-addressing plumbing with no observable semantics and are omitted
from the account structures.  Anchor resolves the instruction's accounts
before the handler body runs: an `init` account that already exists or a
required PDA that does not exist aborts the instruction, modelled by the
`accountAlreadyInUse` / `accountNotInitialized` errors.  A failed
instruction reverts the whole transaction, so errors discard all writes. -/

/-- `NameRecord` — `src/programs/nominal-registry/src/lib.rs:439-446`. -/
structure NameRecord where
  name : String
  owner : Nat
  resolved : Nat
  updated_at : Int
deriving DecidableEq, Repr

/-- `PrimaryNameRegistry` — `src/programs/nominal-registry/src/lib.rs:458-463`. -/
structure PrimaryNameRegistry where
  owner : Nat
  name : String
deriving DecidableEq, Repr

/-- `TokenFeeConfig` — `src/programs/nominal-registry/src/lib.rs:449-455`. -/
structure TokenFeeConfig where
  mint : Nat
  amount : Nat
  enabled : Bool
deriving DecidableEq, Repr

/-- `RegistryConfig` — `src/programs/nominal-registry/src/lib.rs:427-436`. -/
structure RegistryConfig where
  admin : Nat
  pending_admin : Option Nat
  treasury : Nat
  registration_fee : Nat
  referrer_bps : Nat
  require_allowlisted_relayer : Bool
deriving DecidableEq, Repr

/-- `RegisterWithSigParams` — `src/programs/nominal-registry/src/lib.rs:472-480`. -/
structure RegisterWithSigParams where
  name : String
  owner : Nat
  relayer : Nat
  currency : Option Nat
  amount : Nat
  deadline : Int
  nonce : Nat
deriving DecidableEq, Repr

/-- The program's persistent accounts: the config PDA, the per-name
`NameRecord` PDAs, the per-owner `PrimaryNameRegistry` PDAs, the
`RelayerEntry` PDAs (one per allowlisted relayer key) and the per-mint
`TokenFeeConfig` PDAs. -/
structure Ledger where
  config : RegistryConfig
  nameRecords : List (String × NameRecord)
  primaryNames : List (Nat × PrimaryNameRegistry)
  relayerEntries : List Nat
  tokenFees : List (Nat × TokenFeeConfig)
deriving DecidableEq, Repr

/-- The program's `ErrorCode` enum
(`src/programs/nominal-registry/src/lib.rs:927-961`) plus the runtime-level
failures surfaced by Anchor account resolution and the transfer CPIs. -/
inductive ErrorCode where
  | InvalidNameLength
  | InvalidCharacter
  | InvalidHyphenPlacement
  | ConsecutiveHyphens
  | NameAlreadyExists
  | NameNotFound
  | Unauthorized
  | InvalidReferrerBps
  | InvalidSignature
  | DeadlineExpired
  | InvalidNonce
  | TokenNotEnabled
  | InsufficientTokenBalance
  | RelayerNotAllowed
  | InvalidTreasuryAddress
  | TokenFeeMismatch
  | accountAlreadyInUse      -- Anchor: `init` account already exists
  | accountNotInitialized    -- Anchor: required PDA account missing
  | insufficientLamports     -- system_program::transfer failure
  | splTransferFailed        -- token::transfer CPI failure
deriving DecidableEq, Repr

/-- The character loop of `validate_name` —
`src/programs/nominal-registry/src/lib.rs:907-915`.  `byteLen` is
`name.len()` (a byte count) while `i` counts characters, exactly as in the
source. -/
def validateScan (byteLen : Nat) : List Char → Nat → Except ErrorCode Unit
  | [], _ => .ok ()
  | c :: rest, i =>
    let valid := (decide (97 ≤ c.toNat) && decide (c.toNat ≤ 122))
      || (decide (48 ≤ c.toNat) && decide (c.toNat ≤ 57)) || decide (c = '-')
    if !valid then .error .InvalidCharacter
    else if decide (c = '-') && (decide (i = 0) || decide (i = byteLen - 1)) then
      .error .InvalidHyphenPlacement
    else validateScan byteLen rest (i + 1)

/-- Rust `&str::starts_with` on character lists (used to model
`str::contains`). -/
def beginsWith : List Char → List Char → Bool
  | _, [] => true
  | [], _ :: _ => false
  | a :: s, b :: p => decide (a = b) && beginsWith s p

/-- Rust `str::contains(pattern)`: some suffix starts with the pattern. -/
def containsSeq : List Char → List Char → Bool
  | [], pat => beginsWith [] pat
  | a :: rest, pat => beginsWith (a :: rest) pat || containsSeq rest pat

/-- `validate_name` — `src/programs/nominal-registry/src/lib.rs:902-921`:
byte-length bound, per-character alphabet and hyphen-placement checks, then
the `"--"` substring check. -/
def validate_name (name : String) : Except ErrorCode Unit :=
  let byteLen := (strBytes name).length
  if !(decide (3 ≤ byteLen) && decide (byteLen ≤ 63)) then .error .InvalidNameLength
  else
    match validateScan byteLen name.data 0 with
    | .error e => .error e
    | .ok () =>
      if containsSeq name.data ['-', '-'] then .error .ConsecutiveHyphens
      else .ok ()

/-- The owner field Anchor presents for the `primary_name` account: the
stored account if the PDA exists, otherwise the zero-initialized account
created by `init_if_needed` (whose `owner` is `Pubkey::default()` = 0). -/
def primaryOwnerField (L : Ledger) (user : Nat) : Nat :=
  match alGet L.primaryNames user with
  | some p => p.owner
  | none => 0

/-- The `if ctx.accounts.primary_name.owner == Pubkey::default()` block
shared verbatim by all four registration handlers (e.g.
`src/programs/nominal-registry/src/lib.rs:181-188`). -/
def setPrimaryIfEmpty (L : Ledger) (user : Nat) (name : String) : Ledger :=
  if primaryOwnerField L user = 0 then
    { L with primaryNames := alInsert L.primaryNames user { owner := user, name := name } }
  else L

/-- The referrer-share computation of the signature handlers —
`src/programs/nominal-registry/src/lib.rs:277-281` and `:389-393`:
`(fee as u128) * (bps as u128) / 10_000` then a truncating `as u64` cast. -/
def sol_referrer_amount (fee bps : Nat) : Nat :=
  fee * bps / 10000 % 2 ^ 64

/-- `register_name` — `src/programs/nominal-registry/src/lib.rs:154-196`.
`userLamports` is the payer's balance available to the fee transfer.
Returns the new ledger and the lamport transfers (receiver, amount). -/
def register_name (L : Ledger) (user : Nat) (userLamports : Nat) (name : String)
    (now : Int) : Except ErrorCode (Ledger × List (Nat × Nat)) :=
  if (alGet L.nameRecords name).isSome then .error .accountAlreadyInUse
  else
    match validate_name name with
    | .error e => .error e
    | .ok () =>
      let record : NameRecord :=
        { name := name, owner := user, resolved := user, updated_at := now }
      let L1 := { L with nameRecords := alInsert L.nameRecords name record }
      if userLamports < L.config.registration_fee then .error .insufficientLamports
      else
        let L2 := setPrimaryIfEmpty L1 user name
        .ok (L2, [(L.config.treasury, L.config.registration_fee)])

/-- `register_name_with_signature` —
`src/programs/nominal-registry/src/lib.rs:242-312`.  The SOL-only
meta-transaction path; note that `params.nonce` is never consulted and the
`signature` is only length-checked.  Returns the lamport transfers issued:
only the treasury share is ever transferred. -/
def register_name_with_signature (L : Ledger) (relayer : Nat)
    (relayerLamports : Nat) (params : RegisterWithSigParams)
    (signature : List Nat) (now : Int) :
    Except ErrorCode (Ledger × List (Nat × Nat)) :=
  if (alGet L.nameRecords params.name).isSome then .error .accountAlreadyInUse
  else if !(L.relayerEntries.contains relayer) then .error .accountNotInitialized
  else
    match validate_name params.name with
    | .error e => .error e
    | .ok () =>
      if decide (params.deadline < now) then .error .DeadlineExpired
      else if relayer ≠ params.relayer then .error .Unauthorized
      -- `relayer_entry.relayer == relayer.key()` holds by the PDA seeds
      -- (`seeds = [b"relayer", relayer.key()]`), re-checked in the source.
      else if signature.length ≠ 64 then .error .InvalidSignature
      else
        let record : NameRecord :=
          { name := params.name, owner := params.owner, resolved := params.owner,
            updated_at := now }
        let L1 := { L with nameRecords := alInsert L.nameRecords params.name record }
        if params.currency.isSome then .error .TokenNotEnabled
        else if relayerLamports < L.config.registration_fee then
          .error .InsufficientTokenBalance
        else
          let referrer_amount :=
            sol_referrer_amount L.config.registration_fee L.config.referrer_bps
          let treasury_amount := L.config.registration_fee - referrer_amount
          let L2 := setPrimaryIfEmpty L1 params.owner params.name
          .ok (L2, [(L.config.treasury, treasury_amount)])

/-- `register_name_with_signature_token` —
`src/programs/nominal-registry/src/lib.rs:366-419`.  The token
meta-transaction path; transfers only `treasury_amount` SPL tokens
(receiver, amount), computed with `sol_referrer_amount`.
`relayerTokenBalance` is the relayer's token-account balance, and
`treasuryTokenAccount` identifies the treasury's token account. -/
def register_name_with_signature_token (L : Ledger) (relayer : Nat)
    (relayerTokenBalance : Nat) (mint treasuryTokenAccount : Nat)
    (params : RegisterWithSigParams) (signature : List Nat) (now : Int) :
    Except ErrorCode (Ledger × List (Nat × Nat)) :=
  if (alGet L.nameRecords params.name).isSome then .error .accountAlreadyInUse
  else
    match alGet L.tokenFees mint with
    | none => .error .accountNotInitialized
    | some token_fee =>
      if !(L.relayerEntries.contains relayer) then .error .accountNotInitialized
      else
        match validate_name params.name with
        | .error e => .error e
        | .ok () =>
          if signature.length ≠ 64 then .error .InvalidSignature
          else if !token_fee.enabled then .error .TokenNotEnabled
          else if token_fee.amount ≠ params.amount then .error .TokenFeeMismatch
          else
            let record : NameRecord :=
              { name := params.name, owner := params.owner, resolved := params.owner,
                updated_at := now }
            let L1 := { L with nameRecords := alInsert L.nameRecords params.name record }
            let referrer_amount :=
              sol_referrer_amount token_fee.amount L.config.referrer_bps
            let treasury_amount := token_fee.amount - referrer_amount
            if relayerTokenBalance < treasury_amount then .error .splTransferFailed
            else
              let L2 := setPrimaryIfEmpty L1 params.owner params.name
              .ok (L2, [(treasuryTokenAccount, treasury_amount)])

/-- `transfer_name` — `src/programs/nominal-registry/src/lib.rs:316-331`.
The `TransferName` context (`:800-813`) requires the record to exist and the
signer to be its owner; the handler updates `owner`/`updated_at` only — no
primary-name account is touched. -/
def transfer_name (L : Ledger) (caller : Nat) (name : String) (new_owner : Nat)
    (now : Int) : Except ErrorCode Ledger :=
  match alGet L.nameRecords name with
  | none => .error .accountNotInitialized
  | some record =>
    if record.owner ≠ caller then .error .Unauthorized
    else
      let updated := { record with owner := new_owner, updated_at := now }
      .ok { L with nameRecords := alInsert L.nameRecords name updated }

end Sol

/-! ### Equivalence of the two name validators with the declarative rules -/

/-- Adjacent-hyphen scan with an explicit carry: `ph` says whether the byte
before the list was a hyphen.  This is the loop structure of the NEAR
validator's `prev_hyphen` flag. -/
def adjFrom (ph : Bool) : List Nat → Bool
  | [] => false
  | b :: rest => (ph && decide (b = 45)) || adjFrom (decide (b = 45)) rest

theorem adjFrom_eq (l : List Nat) :
    ∀ ph, adjFrom ph l = (ph && headHyphen l || hasAdjHyphen l) := by
  induction l with
  | nil => intro ph; simp [adjFrom, headHyphen, hasAdjHyphen]
  | cons b rest ih =>
    intro ph
    cases rest with
    | nil =>
      by_cases hb : b = 45 <;> cases ph <;>
        simp [adjFrom, headHyphen, hasAdjHyphen, hb]
    | cons c rest2 =>
      have hstep : adjFrom ph (b :: c :: rest2) =
          ((ph && decide (b = 45)) || adjFrom (decide (b = 45)) (c :: rest2)) := rfl
      rw [hstep, ih]
      by_cases hb : b = 45 <;> by_cases hc : c = 45 <;> cases ph <;>
        simp [headHyphen, hasAdjHyphen, hb, hc, Bool.or_assoc]

theorem validScan_step (len b : Nat) (rest : List Nat) (i : Nat) (ph : Bool) :
    Near.validScan len (b :: rest) i ph =
      (if !byteAlpha b then false
       else if decide (b = 45) && (decide (i = 0) || decide (i = len - 1)) then false
       else if decide (b = 45) && ph then false
       else Near.validScan len rest (i + 1) (decide (b = 45))) := rfl

theorem validScan_eq (len : Nat) :
    ∀ (t : List Nat) (i : Nat) (ph : Bool), i + t.length = len →
      Near.validScan len t i ph =
        (t.all byteAlpha && !(decide (i = 0) && headHyphen t) && !lastHyphen t
          && !adjFrom ph t) := by
  intro t
  induction t with
  | nil =>
    intro i ph _
    simp [Near.validScan, headHyphen, lastHyphen, adjFrom]
  | cons b rest ih =>
    intro i ph h
    simp only [List.length_cons] at h
    rw [validScan_step]
    by_cases hval : byteAlpha b = true
    · rw [if_neg (by simp [hval])]
      by_cases hb : b = 45
      · subst hb
        by_cases hi : i = 0
        · subst hi
          simp [headHyphen]
        · cases rest with
          | nil =>
            simp only [List.length_nil] at h
            have hlast : i = len - 1 := by omega
            simp [lastHyphen, hlast]
          | cons c rest2 =>
            simp only [List.length_cons] at h
            have hnotlast : ¬ i = len - 1 := by omega
            cases ph with
            | true => simp [adjFrom, hi, hnotlast]
            | false =>
              rw [if_neg (by simp [hi, hnotlast]), if_neg (by simp)]
              rw [ih (i + 1) (decide ((45 : Nat) = 45)) (by simp only [List.length_cons]; omega)]
              simp [byteAlpha, headHyphen, lastHyphen, adjFrom, hi]
      · rw [if_neg (by simp [hb]), if_neg (by simp [hb])]
        rw [ih (i + 1) (decide (b = 45)) (by omega)]
        cases rest with
        | nil => simp [headHyphen, lastHyphen, adjFrom, hval, hb]
        | cons c rest2 => simp [headHyphen, lastHyphen, adjFrom, hval, hb]
    · have hbf : byteAlpha b = false := by
        cases hx : byteAlpha b
        · rfl
        · exact absurd hx hval
      rw [if_pos (by simp [hbf])]
      simp [hbf]

theorem nearValidBytes_eq_spec (l : List Nat) :
    Near.nearValidBytes l = specValidBytes l := by
  unfold Near.nearValidBytes specValidBytes
  by_cases h3 : 3 ≤ l.length
  · by_cases h63 : l.length ≤ 63
    · rw [if_neg (by simp; omega)]
      rw [validScan_eq l.length l 0 false (Nat.zero_add _), adjFrom_eq]
      simp [h3, h63, Bool.and_assoc]
    · rw [if_pos (by simp; omega)]
      simp [h63]
  · rw [if_pos (by simp; omega)]
    simp [h3]

/-- The NEAR validator is exactly the declarative predicate. -/
theorem near_valid_iff (s : String) :
    Near.is_valid_name s = true ↔ SpecValidName s := by
  unfold Near.is_valid_name SpecValidName
  rw [nearValidBytes_eq_spec]

/-! ### The Solana validator against the same declarative predicate -/

/-- `c == '-'` in terms of the code point. -/
theorem char_hyphen_iff (c : Char) : c = '-' ↔ c.toNat = 45 := by
  constructor
  · intro h; subst h; rfl
  · intro h
    have hv : c.val = ('-' : Char).val := by
      apply UInt32.ext
      simpa [Char.toNat] using h
    exact Char.ext hv

/-- The `valid` expression of the Solana loop is `byteAlpha` of the char's
code point. -/
theorem solCharValid_eq (c : Char) :
    ((decide (97 ≤ c.toNat) && decide (c.toNat ≤ 122))
      || (decide (48 ≤ c.toNat) && decide (c.toNat ≤ 57)) || decide (c = '-'))
    = byteAlpha c.toNat := by
  unfold byteAlpha
  rw [show decide (c = '-') = decide (c.toNat = 45) from
    decide_eq_decide.mpr (char_hyphen_iff c)]

theorem byteAlpha_lt128 {b : Nat} (h : byteAlpha b = true) : b < 128 := by
  simp only [byteAlpha, Bool.or_eq_true, Bool.and_eq_true, decide_eq_true_eq] at h
  omega

theorem byteAlpha_ge128 {b : Nat} (h : 128 ≤ b) : byteAlpha b = false := by
  cases hx : byteAlpha b
  · rfl
  · exact absurd (byteAlpha_lt128 hx) (by omega)

/-- Char-level heads/lasts/adjacent-hyphen spec helpers. -/
def headHyphenC : List Char → Bool
  | [] => false
  | c :: _ => decide (c = '-')

def lastHyphenC : List Char → Bool
  | [] => false
  | [c] => decide (c = '-')
  | _ :: c :: rest => lastHyphenC (c :: rest)

def hasAdjHyphenC : List Char → Bool
  | a :: b :: rest => (decide (a = '-') && decide (b = '-')) || hasAdjHyphenC (b :: rest)
  | _ => false

theorem headHyphen_map (l : List Char) :
    headHyphen (l.map Char.toNat) = headHyphenC l := by
  cases l with
  | nil => rfl
  | cons c rest =>
    simp only [List.map_cons, headHyphen, headHyphenC]
    exact decide_eq_decide.mpr (char_hyphen_iff c).symm

theorem lastHyphen_map (l : List Char) :
    lastHyphen (l.map Char.toNat) = lastHyphenC l := by
  induction l with
  | nil => rfl
  | cons c rest ih =>
    cases rest with
    | nil =>
      simp only [List.map_cons, List.map_nil, lastHyphen, lastHyphenC]
      exact decide_eq_decide.mpr (char_hyphen_iff c).symm
    | cons d rest2 => simpa [lastHyphen, lastHyphenC] using ih

theorem hasAdjHyphen_map (l : List Char) :
    hasAdjHyphen (l.map Char.toNat) = hasAdjHyphenC l := by
  induction l with
  | nil => rfl
  | cons c rest ih =>
    cases rest with
    | nil => rfl
    | cons d rest2 =>
      simp only [List.map_cons, hasAdjHyphen, hasAdjHyphenC]
      rw [show decide (c.toNat = 45) = decide (c = '-') from
            decide_eq_decide.mpr (char_hyphen_iff c).symm,
          show decide (d.toNat = 45) = decide (d = '-') from
            decide_eq_decide.mpr (char_hyphen_iff d).symm]
      have ih2 : hasAdjHyphen (d.toNat :: List.map Char.toNat rest2) =
          hasAdjHyphenC (d :: rest2) := by simpa using ih
      rw [ih2]

theorem containsSeq_hyphen (l : List Char) :
    Sol.containsSeq l ['-', '-'] = hasAdjHyphenC l := by
  induction l with
  | nil => rfl
  | cons a rest ih =>
    cases rest with
    | nil => simp [Sol.containsSeq, Sol.beginsWith, hasAdjHyphenC]
    | cons b rest2 =>
      simp only [Sol.containsSeq, Sol.beginsWith, hasAdjHyphenC] at *
      rw [ih]
      cases hA : decide (a = '-') <;> cases hB : decide (b = '-') <;> simp [hA, hB]

theorem validateScan_step (L : Nat) (c : Char) (rest : List Char) (i : Nat) :
    Sol.validateScan L (c :: rest) i =
      (if !((decide (97 ≤ c.toNat) && decide (c.toNat ≤ 122))
            || (decide (48 ≤ c.toNat) && decide (c.toNat ≤ 57)) || decide (c = '-')) then
         .error .InvalidCharacter
       else if decide (c = '-') && (decide (i = 0) || decide (i = L - 1)) then
         .error .InvalidHyphenPlacement
       else Sol.validateScan L rest (i + 1)) := rfl

theorem validateScan_ok_alpha (L : Nat) :
    ∀ (t : List Char) (i : Nat), Sol.validateScan L t i = .ok () →
      ∀ c ∈ t, byteAlpha c.toNat = true := by
  intro t
  induction t with
  | nil => intro i _ c hc; exact absurd hc (List.not_mem_nil c)
  | cons c rest ih =>
    intro i hok d hd
    rw [validateScan_step, solCharValid_eq] at hok
    by_cases hval : byteAlpha c.toNat = true
    · rw [if_neg (by simp [hval])] at hok
      rcases List.mem_cons.mp hd with h | h
      · subst h; exact hval
      · by_cases hsecond : (decide (c = '-') && (decide (i = 0) || decide (i = L - 1))) = true
        · rw [if_pos hsecond] at hok
          exact absurd hok (by simp)
        · rw [if_neg hsecond] at hok
          exact ih (i + 1) hok d h
    · have hbf : byteAlpha c.toNat = false := by
        cases hx : byteAlpha c.toNat
        · rfl
        · exact absurd hx hval
      rw [if_pos (by simp [hbf])] at hok
      exact absurd hok (by simp)

theorem validateScan_iff (L : Nat) :
    ∀ (t : List Char) (i : Nat), i + t.length = L →
      (Sol.validateScan L t i = .ok () ↔
        (t.all (fun c => byteAlpha c.toNat) && !(decide (i = 0) && headHyphenC t)
          && !lastHyphenC t) = true) := by
  intro t
  induction t with
  | nil =>
    intro i _
    simp [Sol.validateScan, headHyphenC, lastHyphenC]
  | cons c rest ih =>
    intro i h
    simp only [List.length_cons] at h
    rw [validateScan_step, solCharValid_eq]
    by_cases hval : byteAlpha c.toNat = true
    · rw [if_neg (by simp [hval])]
      by_cases hc : c = '-'
      · by_cases hi : i = 0
        · rw [if_pos (by simp [hc, hi])]
          simp [hi, headHyphenC, hc]
        · cases rest with
          | nil =>
            simp only [List.length_nil] at h
            have hlast : i = L - 1 := by omega
            rw [if_pos (by simp [hc, hlast])]
            simp [lastHyphenC, hc]
          | cons d rest2 =>
            simp only [List.length_cons] at h
            have hnotlast : ¬ i = L - 1 := by omega
            rw [if_neg (by simp [hi, hnotlast])]
            rw [ih (i + 1) (by simp only [List.length_cons]; omega)]
            simp [headHyphenC, lastHyphenC, hval, hi, hc, byteAlpha]
      · rw [if_neg (by simp [hc])]
        rw [ih (i + 1) (by omega)]
        cases rest with
        | nil => simp [headHyphenC, lastHyphenC, hval, hc]
        | cons d rest2 => simp [headHyphenC, lastHyphenC, hval, hc]
    · have hbf : byteAlpha c.toNat = false := by
        cases hx : byteAlpha c.toNat
        · rfl
        · exact absurd hx hval
      rw [if_pos (by simp [hbf])]
      simp [hbf]

theorem utf8Bytes_ne_nil (c : Char) : utf8Bytes c ≠ [] := by
  simp only [utf8Bytes]
  split
  · simp
  · split
    · simp
    · split <;> simp

/-- `validate_name` succeeds exactly when the length bound, the scan and the
`"--"` check all pass. -/
theorem validate_ok_iff_parts (s : String) :
    Sol.validate_name s = .ok () ↔
      (3 ≤ (strBytes s).length ∧ (strBytes s).length ≤ 63
        ∧ Sol.validateScan (strBytes s).length s.data 0 = .ok ()
        ∧ Sol.containsSeq s.data ['-', '-'] = false) := by
  simp only [Sol.validate_name]
  by_cases hlen : 3 ≤ (strBytes s).length ∧ (strBytes s).length ≤ 63
  · rw [if_neg (by simp [hlen.1, hlen.2])]
    cases hscan : Sol.validateScan (strBytes s).length s.data 0 with
    | error e => simp [hscan, hlen.1, hlen.2]
    | ok u =>
      cases u
      by_cases hcont : Sol.containsSeq s.data ['-', '-'] = true
      · rw [if_pos hcont]
        simp [hscan, hcont, hlen.1, hlen.2]
      · have hcf : Sol.containsSeq s.data ['-', '-'] = false := by
          cases hx : Sol.containsSeq s.data ['-', '-']
          · rfl
          · exact absurd hx hcont
        rw [if_neg hcont]
        simp [hscan, hcf, hlen.1, hlen.2]
  · rw [if_pos (by push_neg at hlen; simp; omega)]
    exact iff_of_false (by simp) (fun hp => hlen ⟨hp.1, hp.2.1⟩)

theorem all_map_toNat (l : List Char) :
    (l.map Char.toNat).all byteAlpha = l.all (fun c => byteAlpha c.toNat) := by
  induction l with
  | nil => rfl
  | cons c rest ih => simp [ih]

/-- The Solana validator is exactly the declarative predicate. -/
theorem sol_valid_iff (s : String) :
    Sol.validate_name s = .ok () ↔ SpecValidName s := by
  rw [validate_ok_iff_parts]
  unfold SpecValidName
  by_cases hall : ∀ c ∈ s.data, byteAlpha c.toNat = true
  · have hascii : ∀ c ∈ s.data, c.toNat < 128 := fun c hc => byteAlpha_lt128 (hall c hc)
    have hmap : strBytes s = s.data.map Char.toNat := strBytes_eq_map hascii
    have hlen2 : (strBytes s).length = s.data.length := by rw [hmap, List.length_map]
    rw [validateScan_iff ((strBytes s).length) s.data 0 (by omega)]
    rw [hmap]
    simp only [specValidBytes, List.length_map, all_map_toNat, headHyphen_map,
      lastHyphen_map, hasAdjHyphen_map, containsSeq_hyphen]
    simp only [Bool.and_eq_true, decide_eq_true_eq, Bool.not_eq_true',
      decide_True, Bool.true_and]
    tauto
  · push_neg at hall
    obtain ⟨c, hc, hca⟩ := hall
    have hcf : byteAlpha c.toNat = false := by
      cases hx : byteAlpha c.toNat
      · rfl
      · exact absurd hx hca
    have hbadByte : ∃ b ∈ strBytes s, byteAlpha b = false := by
      by_cases hsmall : c.toNat < 128
      · exact ⟨c.toNat, List.mem_flatMap.mpr ⟨c, hc, by
          rw [utf8Bytes_ascii hsmall]; exact List.mem_singleton.mpr rfl⟩, hcf⟩
      · obtain ⟨b, hb⟩ := List.exists_mem_of_ne_nil (utf8Bytes c) (utf8Bytes_ne_nil c)
        exact ⟨b, List.mem_flatMap.mpr ⟨c, hc, hb⟩,
          byteAlpha_ge128 (utf8Bytes_nonascii (by omega) b hb)⟩
    have hallfalse : (strBytes s).all byteAlpha = false := by
      obtain ⟨b, hb, hbf⟩ := hbadByte
      cases hx : (strBytes s).all byteAlpha
      · rfl
      · have := List.all_eq_true.mp hx b hb
        rw [hbf] at this
        exact absurd this (by simp)
    refine iff_of_false ?_ ?_
    · rintro ⟨_, _, hscan, _⟩
      exact absurd (validateScan_ok_alpha _ s.data 0 hscan c hc) (by simp [hcf])
    · simp [specValidBytes, hallfalse]

namespace Sol

/-- `register_name_with_token` — `src/programs/nominal-registry/src/lib.rs:198-240`:
direct token-fee path; transfers the full configured `token_fee.amount` to the
treasury token account. -/
def register_name_with_token (L : Ledger) (user : Nat) (userTokenBalance : Nat)
    (mint treasuryTokenAccount : Nat) (name : String) (now : Int) :
    Except ErrorCode (Ledger × List (Nat × Nat)) :=
  if (alGet L.nameRecords name).isSome then .error .accountAlreadyInUse
  else
    match alGet L.tokenFees mint with
    | none => .error .accountNotInitialized
    | some token_fee =>
      match validate_name name with
      | .error e => .error e
      | .ok () =>
        if !token_fee.enabled then .error .TokenNotEnabled
        else
          let record : NameRecord :=
            { name := name, owner := user, resolved := user, updated_at := now }
          let L1 := { L with nameRecords := alInsert L.nameRecords name record }
          if userTokenBalance < token_fee.amount then .error .splTransferFailed
          else
            let L2 := setPrimaryIfEmpty L1 user name
            .ok (L2, [(treasuryTokenAccount, token_fee.amount)])

end Sol

/-! ### Every registration path runs the validator: success implies validity -/

theorem register_internal_ok_valid {s : Near.ContractState} {a n o : String}
    {d ts : Nat} {m : Bool} {rel : Option String} {ae dl : Nat} {non : Option Nat}
    {r : Near.ContractState × List (String × Nat)}
    (hok : Near.register_internal s a n o d ts m rel ae dl non = .ok r) :
    Near.is_valid_name n = true := by
  by_cases hv : Near.is_valid_name n = true
  · exact hv
  · have hv' : Near.is_valid_name n = false := by
      cases hx : Near.is_valid_name n
      · rfl
      · exact absurd hx hv
    simp [Near.register_internal, hv'] at hok

theorem ft_on_transfer_ok_valid {s : Near.ContractState} {tok snd : String}
    {amt : Nat} {msg : Near.FtMsg} {now : Nat} {out : Near.FtOutcome}
    (hok : Near.ft_on_transfer s tok snd amt msg now = .ok out) :
    Near.is_valid_name msg.name = true := by
  by_cases hv : Near.is_valid_name msg.name = true
  · exact hv
  · have hv' : Near.is_valid_name msg.name = false := by
      cases hx : Near.is_valid_name msg.name
      · rfl
      · exact absurd hx hv
    simp only [Near.ft_on_transfer, hv'] at hok
    split at hok
    · simp_all
    · split at hok
      · simp_all
      · split at hok <;> simp_all

theorem register_with_sig_ok_valid {s : Near.ContractState} {sender : String}
    {dep ts : Nat} {n own rel : String} {amt dl non : Nat} {sig : List Nat}
    {r : Near.ContractState × List (String × Nat)}
    (hok : Near.register_with_sig s sender dep ts n own rel amt dl non sig = .ok r) :
    Near.is_valid_name n = true := by
  simp only [Near.register_with_sig] at hok
  split at hok
  · exact absurd hok (by simp)
  · split at hok
    · exact absurd hok (by simp)
    · exact register_internal_ok_valid hok

theorem sol_register_name_ok_valid {L : Sol.Ledger} {u ul : Nat} {n : String}
    {now : Int} {r : Sol.Ledger × List (Nat × Nat)}
    (hok : Sol.register_name L u ul n now = .ok r) :
    Sol.validate_name n = .ok () := by
  simp only [Sol.register_name] at hok
  split at hok
  · exact absurd hok (by simp)
  · split at hok <;> simp_all

theorem sol_register_token_ok_valid {L : Sol.Ledger} {u tb mint tta : Nat}
    {n : String} {now : Int} {r : Sol.Ledger × List (Nat × Nat)}
    (hok : Sol.register_name_with_token L u tb mint tta n now = .ok r) :
    Sol.validate_name n = .ok () := by
  simp only [Sol.register_name_with_token] at hok
  split at hok
  · exact absurd hok (by simp)
  · split at hok
    · exact absurd hok (by simp)
    · split at hok <;> simp_all

theorem sol_register_sig_ok_valid {L : Sol.Ledger} {rel rl : Nat}
    {par : Sol.RegisterWithSigParams} {sig : List Nat} {now : Int}
    {r : Sol.Ledger × List (Nat × Nat)}
    (hok : Sol.register_name_with_signature L rel rl par sig now = .ok r) :
    Sol.validate_name par.name = .ok () := by
  simp only [Sol.register_name_with_signature] at hok
  split at hok
  · exact absurd hok (by simp)
  · split at hok
    · exact absurd hok (by simp)
    · split at hok <;> simp_all

theorem sol_register_sig_token_ok_valid {L : Sol.Ledger} {rel rtb mint tta : Nat}
    {par : Sol.RegisterWithSigParams} {sig : List Nat} {now : Int}
    {r : Sol.Ledger × List (Nat × Nat)}
    (hok : Sol.register_name_with_signature_token L rel rtb mint tta par sig now = .ok r) :
    Sol.validate_name par.name = .ok () := by
  simp only [Sol.register_name_with_signature_token] at hok
  split at hok
  · exact absurd hok (by simp)
  · split at hok
    · exact absurd hok (by simp)
    · split at hok
      · exact absurd hok (by simp)
      · split at hok <;> simp_all

/-! ## Claim theorems -/

/-- C8: the name validator is a deterministic predicate accepting a string iff
its byte length is between 3 and 63, every character is a lowercase ASCII
letter, digit or hyphen, the first and last characters are not hyphens and no
two hyphens are adjacent (`SpecValidName`); and the same predicate gates every
registration path — direct, external-asset and meta-transaction — in both
implementations: a successful registration implies the validator accepted the
name. -/
theorem C8_validator_spec (s : String) :
    (Near.is_valid_name s = true ↔ SpecValidName s)
    ∧ (Sol.validate_name s = .ok () ↔ SpecValidName s)
    ∧ (∀ st sender deposit ts r, Near.register st sender s deposit ts = .ok r →
        Near.is_valid_name s = true)
    ∧ (∀ st tok snd amt (msg : Near.FtMsg) now out, msg.name = s →
        Near.ft_on_transfer st tok snd amt msg now = .ok out →
        Near.is_valid_name s = true)
    ∧ (∀ st sender dep ts own rel amt dl non sig r,
        Near.register_with_sig st sender dep ts s own rel amt dl non sig = .ok r →
        Near.is_valid_name s = true)
    ∧ (∀ L u ul now r, Sol.register_name L u ul s now = .ok r →
        Sol.validate_name s = .ok ())
    ∧ (∀ L u tb mint tta now r, Sol.register_name_with_token L u tb mint tta s now = .ok r →
        Sol.validate_name s = .ok ())
    ∧ (∀ L rel rl (par : Sol.RegisterWithSigParams) sig now r, par.name = s →
        Sol.register_name_with_signature L rel rl par sig now = .ok r →
        Sol.validate_name s = .ok ())
    ∧ (∀ L rel rtb mint tta (par : Sol.RegisterWithSigParams) sig now r, par.name = s →
        Sol.register_name_with_signature_token L rel rtb mint tta par sig now = .ok r →
        Sol.validate_name s = .ok ()) := by
  refine ⟨near_valid_iff s, sol_valid_iff s, ?_, ?_, ?_, ?_, ?_, ?_, ?_⟩
  · intro st sender deposit ts r hok
    exact register_internal_ok_valid hok
  · intro st tok snd amt msg now out hname hok
    exact hname ▸ ft_on_transfer_ok_valid hok
  · intro st sender dep ts own rel amt dl non sig r hok
    exact register_with_sig_ok_valid hok
  · intro L u ul now r hok
    exact sol_register_name_ok_valid hok
  · intro L u tb mint tta now r hok
    exact sol_register_token_ok_valid hok
  · intro L rel rl par sig now r hname hok
    exact hname ▸ sol_register_sig_ok_valid hok
  · intro L rel rtb mint tta par sig now r hname hok
    exact hname ▸ sol_register_sig_token_ok_valid hok

/-- Witness for C8 at the concrete name `"a1b-2c"` (and an invalid one). -/
theorem C8_validator_spec_witness :
    (Near.is_valid_name "a1b-2c" = true ↔ SpecValidName "a1b-2c")
    ∧ (Sol.validate_name "bad--bad" = .ok () ↔ SpecValidName "bad--bad") :=
  ⟨(C8_validator_spec "a1b-2c").1, (C8_validator_spec "bad--bad").2.1⟩

/-- C10: the two duplicate validators are extensionally equal — for every
string `s`, NEAR's `is_valid_name` accepts `s` exactly when Solana's
`validate_name` returns `Ok` — and both coincide with the declarative rules
(byte length 3–63, alphabet `a-z`/`0-9`/`-`, no leading/trailing hyphen, no
adjacent hyphens). -/
theorem C10_validators_equal (s : String) :
    (Near.is_valid_name s = true ↔ Sol.validate_name s = .ok ())
    ∧ (Near.is_valid_name s = true ↔ SpecValidName s) :=
  ⟨(near_valid_iff s).trans (sol_valid_iff s).symm, near_valid_iff s⟩

/-- Witness for C10 at concrete names exercising both verdicts. -/
theorem C10_validators_equal_witness :
    (Near.is_valid_name "nominal-protocol1" = true ↔
      Sol.validate_name "nominal-protocol1" = .ok ())
    ∧ (Near.is_valid_name "-bad" = true ↔ Sol.validate_name "-bad" = .ok ()) :=
  ⟨(C10_validators_equal "nominal-protocol1").1, (C10_validators_equal "-bad").1⟩

/-! ### C2: fee-split arithmetic -/

/-- Total amount moved by a list of transfers. -/
def paidTotal {α : Type} (l : List (α × Nat)) : Nat :=
  (l.map Prod.snd).sum

theorem refCut_le (t b : Nat) (hb : b ≤ 10000) : t * b / 10000 ≤ t := by
  have h1 : t * b ≤ t * 10000 := Nat.mul_le_mul_left t hb
  calc t * b / 10000 ≤ t * 10000 / 10000 := Nat.div_le_div_right h1
    _ = t := Nat.mul_div_cancel t (by omega)

theorem paidTotal_split {α : Type} (r tre : α) (t rc : Nat) (hrc : rc ≤ t) :
    paidTotal ((if rc > 0 then [(r, rc)] else [])
      ++ (if t - rc > 0 then [(tre, t - rc)] else [])) = t := by
  by_cases h1 : rc > 0 <;> by_cases h2 : t - rc > 0 <;>
    simp [paidTotal, h1, h2] <;> omega

/-- Successful FT registrations issue exactly the referrer/treasury split of
the configured fee (relayer present). -/
theorem ft_ok_transfers {st : Near.ContractState} {tok snd : String} {amt : Nat}
    {msg : Near.FtMsg} {now : Nat} {out : Near.FtOutcome} {t : Nat} {r : String}
    (hget : alGet st.coin_fees tok = some t) (hrel : msg.relayer = some r)
    (hok : Near.ft_on_transfer st tok snd amt msg now = .ok out) :
    out.ftTransfers =
      (if t * st.referrer_bps / 10000 > 0
       then [(r, t * st.referrer_bps / 10000)] else [])
        ++ (if t - t * st.referrer_bps / 10000 > 0
            then [(st.treasury, t - t * st.referrer_bps / 10000)] else []) := by
  simp only [Near.ft_on_transfer, hget, hrel] at hok
  repeat' split at hok
  all_goals simp only [Except.ok.injEq, reduceCtorEq] at hok
  all_goals subst hok
  all_goals simp_all

/-- C2: for any total `t` and basis-points rate `b ≤ 10000` the fee split is
`referrer_share = ⌊t * b / 10000⌋`, `treasury_share = t - referrer_share`, and
the two shares always sum to `t`; the NEAR native meta path
(`process_payment`), the NEAR FT path (`ft_on_transfer`) and the Solana
signature paths (`sol_referrer_amount`, whose `as u64` cast is the identity
for a `u64` fee) all compute their shares by exactly this rule. -/
theorem C2_fee_split (t b fee : Nat) (r : String) (s : Near.ContractState)
    (hb : b ≤ 10000) (hs : s.referrer_bps = b) (hfee : fee < 2 ^ 64) :
    t * b / 10000 + (t - t * b / 10000) = t
    ∧ Near.process_payment s t true (some r) =
        (if t * b / 10000 > 0 then [(r, t * b / 10000)] else [])
          ++ (if t - t * b / 10000 > 0 then [(s.treasury, t - t * b / 10000)] else [])
    ∧ paidTotal (Near.process_payment s t true (some r)) = t
    ∧ (∀ st tok snd amt (msg : Near.FtMsg) now out,
        alGet st.coin_fees tok = some t → st.referrer_bps = b → msg.relayer = some r →
        Near.ft_on_transfer st tok snd amt msg now = .ok out →
        out.ftTransfers =
          (if t * b / 10000 > 0 then [(r, t * b / 10000)] else [])
            ++ (if t - t * b / 10000 > 0 then [(st.treasury, t - t * b / 10000)] else [])
          ∧ paidTotal out.ftTransfers = t)
    ∧ Sol.sol_referrer_amount fee b = fee * b / 10000
    ∧ Sol.sol_referrer_amount fee b + (fee - Sol.sol_referrer_amount fee b) = fee := by
  have hle : t * b / 10000 ≤ t := refCut_le t b hb
  have hshape : Near.process_payment s t true (some r) =
      (if t * b / 10000 > 0 then [(r, t * b / 10000)] else [])
        ++ (if t - t * b / 10000 > 0 then [(s.treasury, t - t * b / 10000)] else []) := by
    by_cases ht : t > 0
    · simp [Near.process_payment, hs, ht]
    · have ht0 : t = 0 := by omega
      subst ht0
      simp [Near.process_payment]
  have hsolle : fee * b / 10000 ≤ fee := refCut_le fee b hb
  have hsol : Sol.sol_referrer_amount fee b = fee * b / 10000 := by
    unfold Sol.sol_referrer_amount
    exact Nat.mod_eq_of_lt (by omega)
  refine ⟨by omega, hshape, ?_, ?_, hsol, by rw [hsol]; omega⟩
  · rw [hshape]
    exact paidTotal_split r s.treasury t (t * b / 10000) hle
  · intro st tok snd amt msg now out hget hbps hrel hok
    have := ft_ok_transfers hget hrel hok
    rw [hbps] at this
    refine ⟨this, ?_⟩
    rw [this]
    exact paidTotal_split r st.treasury t (t * b / 10000) hle

/-- Witness for C2 at `t = 1000`, `b = 500`, `fee = 1000`: shares 50 and 950. -/
theorem C2_fee_split_witness :
    1000 * 500 / 10000 + (1000 - 1000 * 500 / 10000) = 1000
    ∧ paidTotal (Near.process_payment
        { owner := "o", treasury := "tre", registration_fee := 1000,
          referrer_bps := 500, names := [], nonces := [], coin_fees := [],
          primary_names := [], relayers := [],
          require_allowlisted_relayer := false } 1000 true (some "rel")) = 1000
    ∧ Sol.sol_referrer_amount 1000 500 = 1000 * 500 / 10000 := by
  have h := C2_fee_split 1000 500 1000 "rel"
    { owner := "o", treasury := "tre", registration_fee := 1000,
      referrer_bps := 500, names := [], nonces := [], coin_fees := [],
      primary_names := [], relayers := [], require_allowlisted_relayer := false }
    (by decide) (by decide) (by decide)
  exact ⟨h.1, h.2.2.1, h.2.2.2.2.1⟩

/-! ### C7: creation semantics -/

/-- Shape of a successful NEAR direct registration. -/
theorem register_ok_shape {s : Near.ContractState} {a n o : String} {d ts : Nat}
    {s' : Near.ContractState} {tr : List (String × Nat)}
    (hok : Near.register_internal s a n o d ts false none 0 0 none = .ok (s', tr)) :
    Near.is_valid_name n = true ∧ alGet s.names (Near.name_key n) = none
      ∧ s'.names = alInsert s.names (Near.name_key n)
          { owner := o, resolved := some o, updated_at := ts }
      ∧ s'.primary_names = (if (alGet s.primary_names o).isNone
          then alInsert s.primary_names o n else s.primary_names) := by
  simp only [Near.register_internal, Near.register_record_and_primary,
    Near.process_payment] at hok
  repeat' split at hok
  all_goals simp only [Except.ok.injEq, Prod.mk.injEq, reduceCtorEq] at hok
  all_goals obtain ⟨h1, h2⟩ := hok
  all_goals subst h1
  all_goals simp_all

/-- Shape of a successful Solana `register_name`. -/
theorem sol_register_ok_shape {L : Sol.Ledger} {u ul : Nat} {nm : String}
    {now : Int} {L' : Sol.Ledger} {tr : List (Nat × Nat)}
    (hok : Sol.register_name L u ul nm now = .ok (L', tr)) :
    alGet L.nameRecords nm = none
    ∧ L'.nameRecords = alInsert L.nameRecords nm
        { name := nm, owner := u, resolved := u, updated_at := now }
    ∧ L'.primaryNames = (if Sol.primaryOwnerField L u = 0
        then alInsert L.primaryNames u { owner := u, name := nm }
        else L.primaryNames)
    ∧ tr = [(L.config.treasury, L.config.registration_fee)] := by
  simp only [Sol.register_name, Sol.setPrimaryIfEmpty] at hok
  repeat' split at hok
  all_goals simp only [Except.ok.injEq, Prod.mk.injEq, reduceCtorEq] at hok
  all_goals obtain ⟨h1, h2⟩ := hok
  all_goals subst h1
  all_goals simp_all [Sol.primaryOwnerField]

/-- C7: registering name `n` for owner `o` fails with `NameTaken` when a
Record for `n` already exists; on success a Record is inserted whose owner is
`o` and whose resolved identity defaults to `o`, and `n` becomes `o`'s
primary name exactly when `o` had none (in both implementations; the Solana
primary-name account stores the owner key, never 0 for a real signer). -/
theorem C7_create_record (s : Near.ContractState) (L : Sol.Ledger)
    (a n o : String) (d ts : Nat) (u ul : Nat) (nm : String) (now : Int)
    (hval : Near.is_valid_name n = true) :
    ((alGet s.names (Near.name_key n)).isSome →
      Near.register_internal s a n o d ts false none 0 0 none = .error .nameTaken)
    ∧ (∀ s' tr, Near.register_internal s a n o d ts false none 0 0 none = .ok (s', tr) →
        alGet s'.names (Near.name_key n) =
          some { owner := o, resolved := some o, updated_at := ts }
        ∧ (alGet s.primary_names o = none → alGet s'.primary_names o = some n)
        ∧ (∀ p, alGet s.primary_names o = some p → alGet s'.primary_names o = some p))
    ∧ ((alGet L.nameRecords nm).isSome →
        Sol.register_name L u ul nm now = .error .accountAlreadyInUse)
    ∧ (∀ L' tr, Sol.register_name L u ul nm now = .ok (L', tr) →
        alGet L'.nameRecords nm =
          some { name := nm, owner := u, resolved := u, updated_at := now }
        ∧ (alGet L.primaryNames u = none → alGet L'.primaryNames u =
            some { owner := u, name := nm })
        ∧ (∀ p, alGet L.primaryNames u = some p → p.owner = u → u ≠ 0 →
            alGet L'.primaryNames u = some p)) := by
  refine ⟨?_, ?_, ?_, ?_⟩
  · intro htaken
    simp [Near.register_internal, hval, htaken]
  · intro s' tr hok
    obtain ⟨_, _, hnames, hprim⟩ := register_ok_shape hok
    refine ⟨?_, ?_, ?_⟩
    · rw [hnames]
      exact alGet_insert_self ..
    · intro hnone
      rw [hprim]
      simp [hnone, alGet_insert_self]
    · intro p hp
      rw [hprim]
      simp [hp]
  · intro htaken
    simp [Sol.register_name, htaken]
  · intro L' tr hok
    obtain ⟨_, hnames, hprim, _⟩ := sol_register_ok_shape hok
    refine ⟨?_, ?_, ?_⟩
    · rw [hnames]
      exact alGet_insert_self ..
    · intro hnone
      rw [hprim]
      simp [Sol.primaryOwnerField, hnone, alGet_insert_self]
    · intro p hp howner hu
      rw [hprim]
      rw [if_neg (by simp [Sol.primaryOwnerField, hp, howner]; exact hu)]
      exact hp

/-- Witness for C7: concrete fresh and taken registrations on both chains. -/
theorem C7_create_record_witness :
    (Near.register_internal
        { owner := "adm", treasury := "tre", registration_fee := 10,
          referrer_bps := 300,
          names := [(Near.name_key "abc",
            { owner := "bob", resolved := some "bob", updated_at := 1 })],
          nonces := [], coin_fees := [], primary_names := [], relayers := [],
          require_allowlisted_relayer := false }
        "bob" "abc" "bob" 10 2 false none 0 0 none = .error .nameTaken)
    ∧ (Sol.register_name
        { config :=
            { admin := 1, pending_admin := none, treasury := 9,
              registration_fee := 10, referrer_bps := 300,
              require_allowlisted_relayer := false },
          nameRecords := [], primaryNames := [], relayerEntries := [],
          tokenFees := [] } 5 10 "abc" 7).toOption.map
        (fun r => (alGet r.1.nameRecords "abc", alGet r.1.primaryNames 5)) =
      some (some { name := "abc", owner := 5, resolved := 5, updated_at := 7 },
            some { owner := 5, name := "abc" }) := by
  constructor
  · exact (C7_create_record
      { owner := "adm", treasury := "tre", registration_fee := 10,
        referrer_bps := 300,
        names := [(Near.name_key "abc",
          { owner := "bob", resolved := some "bob", updated_at := 1 })],
        nonces := [], coin_fees := [], primary_names := [], relayers := [],
        require_allowlisted_relayer := false }
      { config :=
          { admin := 1, pending_admin := none, treasury := 9,
            registration_fee := 10, referrer_bps := 300,
            require_allowlisted_relayer := false },
        nameRecords := [], primaryNames := [], relayerEntries := [],
        tokenFees := [] }
      "bob" "abc" "bob" 10 2 5 10 "abc" 7 (by decide)).1 (by decide)
  · decide

/-! ### C9: `name_key` collisions conflate distinct names -/

/-- Two distinct valid 63-character names with the same djb2-64 `name_key`
(found by lattice reduction over the hash's linear structure). -/
def collName1 : String := "mmmmmmmmmmmmmmmmmmmmmmmmmmmmmmmmmmmmmmmmmmmmmmmmmmmmmmmmmmmmmmm"

def collName2 : String := "mmnmmmmmmmmmmmmmmmmmmmmmmmmmmmmmmmmmnmmmmmmmooklkoplolipomkkkoj"

/-- C9: in the NEAR implementation names are keyed by the 64-bit djb2 hash
`name_key`, so for two distinct valid names with colliding hashes, after the
first is registered, `get_record` of the second returns the first's Record
and registering the second fails as "Name is already taken". -/
theorem C9_hash_collision (s : Near.ContractState) (n1 n2 a1 o1 a2 o2 : String)
    (d1 ts1 d2 ts2 : Nat) (s' : Near.ContractState) (tr : List (String × Nat))
    (hcol : Near.name_key n1 = Near.name_key n2) (hne : n1 ≠ n2)
    (hv2 : Near.is_valid_name n2 = true)
    (hok : Near.register_internal s a1 n1 o1 d1 ts1 false none 0 0 none = .ok (s', tr)) :
    Near.get_record s' n2 =
      .ok (some { owner := o1, resolved := some o1, updated_at := ts1 })
    ∧ Near.register_internal s' a2 n2 o2 d2 ts2 false none 0 0 none =
        .error .nameTaken := by
  obtain ⟨hv1, hfree, hnames, _⟩ := register_ok_shape hok
  have hget : alGet s'.names (Near.name_key n2) =
      some { owner := o1, resolved := some o1, updated_at := ts1 } := by
    rw [← hcol, hnames]
    exact alGet_insert_self ..
  constructor
  · simp [Near.get_record, hv2, hget]
  · simp [Near.register_internal, hv2, hget]

/-- Witness for C9 at the concrete colliding pair `collName1`/`collName2`. -/
theorem C9_hash_collision_witness :
    Near.get_record
      { owner := "adm", treasury := "tre", registration_fee := 0, referrer_bps := 0,
        names := [(Near.name_key collName1,
          { owner := "carol", resolved := some "carol", updated_at := 3 })],
        nonces := [], coin_fees := [],
        primary_names := [("carol", collName1)], relayers := [],
        require_allowlisted_relayer := false } collName2 =
      .ok (some { owner := "carol", resolved := some "carol", updated_at := 3 })
    ∧ Near.register_internal
      { owner := "adm", treasury := "tre", registration_fee := 0, referrer_bps := 0,
        names := [(Near.name_key collName1,
          { owner := "carol", resolved := some "carol", updated_at := 3 })],
        nonces := [], coin_fees := [],
        primary_names := [("carol", collName1)], relayers := [],
        require_allowlisted_relayer := false } "dave" collName2 "dave" 0 0
        false none 0 0 none = .error .nameTaken :=
  C9_hash_collision
    { owner := "adm", treasury := "tre", registration_fee := 0, referrer_bps := 0,
      names := [], nonces := [], coin_fees := [], primary_names := [],
      relayers := [], require_allowlisted_relayer := false }
    collName1 collName2 "carol" "carol" "dave" "dave" 0 3 0 0
    { owner := "adm", treasury := "tre", registration_fee := 0, referrer_bps := 0,
      names := [(Near.name_key collName1,
        { owner := "carol", resolved := some "carol", updated_at := 3 })],
      nonces := [], coin_fees := [],
      primary_names := [("carol", collName1)], relayers := [],
      require_allowlisted_relayer := false }
    [] (by decide) (by decide) (by decide) (by decide)

/-! ### C6: transfer semantics -/

theorem alGet_eq_none {α β : Type} [DecidableEq α] {l : List (α × β)} {k : α}
    (h : k ∉ l.map Prod.fst) : alGet l k = none := by
  induction l with
  | nil => rfl
  | cons hd tl ih =>
    obtain ⟨k0, v0⟩ := hd
    simp only [List.map_cons, List.mem_cons] at h
    push_neg at h
    show (if k0 = k then some v0 else alGet tl k) = none
    rw [if_neg (fun hh => h.1 hh.symm)]
    exact ih h.2

/-- Removing a key from a duplicate-free association list (the `LookupMap`
representation invariant) makes it absent. -/
theorem alGet_remove_self {α β : Type} [DecidableEq α] {l : List (α × β)} {k : α}
    (h : (l.map Prod.fst).Nodup) : alGet (alRemove l k) k = none := by
  induction l with
  | nil => rfl
  | cons hd tl ih =>
    obtain ⟨k0, v0⟩ := hd
    simp only [List.map_cons, List.nodup_cons] at h
    by_cases h0 : k0 = k
    · subst h0
      simp only [alRemove, if_pos rfl]
      exact alGet_eq_none h.1
    · simp only [alRemove, if_neg h0]
      show (if k0 = k then some v0 else alGet (alRemove tl k) k) = none
      rw [if_neg h0]
      exact ih h.2

/-- C6 (amended): in the NEAR implementation `transfer_name` fails with
`NotFound` when no Record exists and `Unauthorized` when the caller is not
the owner; a successful transfer to a distinct new owner updates the Record's
owner, clears the old owner's primary-name entry exactly when the name was
that entry, and sets the name as the new owner's primary exactly when they
had none.  In the Solana implementation the same failure rules hold, but a
successful `transfer_name` only rewrites the Record's `owner`/`updated_at`:
no primary-name account is read or written.  (`hnd` is the `LookupMap`
representation invariant: one entry per key.) -/
theorem C6_transfer_name (s : Near.ContractState) (caller n new_owner : String)
    (ts : Nat) (L : Sol.Ledger) (cal : Nat) (nm : String) (no : Nat) (now : Int)
    (hval : Near.is_valid_name n = true)
    (hnd : (s.primary_names.map Prod.fst).Nodup) :
    (alGet s.names (Near.name_key n) = none →
      Near.transfer_name s caller n new_owner ts = .error .nameNotFound)
    ∧ (∀ rec, alGet s.names (Near.name_key n) = some rec → rec.owner ≠ caller →
        Near.transfer_name s caller n new_owner ts = .error .notNameOwner)
    ∧ (∀ rec, alGet s.names (Near.name_key n) = some rec → rec.owner = caller →
        new_owner ≠ rec.owner →
        ∀ s2, Near.transfer_name s caller n new_owner ts = .ok s2 →
        alGet s2.names (Near.name_key n) =
          some { rec with owner := new_owner, updated_at := ts }
        ∧ (alGet s.primary_names rec.owner = some n →
            alGet s2.primary_names rec.owner = none)
        ∧ (∀ p, alGet s.primary_names rec.owner = some p → p ≠ n →
            alGet s2.primary_names rec.owner = some p)
        ∧ (alGet s.primary_names new_owner = none →
            alGet s2.primary_names new_owner = some n)
        ∧ (∀ q, alGet s.primary_names new_owner = some q →
            alGet s2.primary_names new_owner = some q))
    ∧ (alGet L.nameRecords nm = none →
        Sol.transfer_name L cal nm no now = .error .accountNotInitialized)
    ∧ (∀ rec, alGet L.nameRecords nm = some rec → rec.owner ≠ cal →
        Sol.transfer_name L cal nm no now = .error .Unauthorized)
    ∧ (∀ rec, alGet L.nameRecords nm = some rec → rec.owner = cal →
        ∀ L2, Sol.transfer_name L cal nm no now = .ok L2 →
        L2.nameRecords = alInsert L.nameRecords nm { rec with owner := no, updated_at := now }
        ∧ L2.primaryNames = L.primaryNames) := by
  refine ⟨?_, ?_, ?_, ?_, ?_, ?_⟩
  · intro hnone
    simp [Near.transfer_name, hval, hnone]
  · intro rec hrec hno
    simp [Near.transfer_name, hval, hrec, hno]
  · intro rec hrec howner hneq s2 hok
    have hne_on : rec.owner ≠ new_owner := fun h => hneq h.symm
    simp only [Near.transfer_name, hval, hrec, Bool.not_true,
      Bool.false_eq_true, if_false] at hok
    rw [if_neg (fun hcon => hcon howner)] at hok
    rcases hpold : alGet s.primary_names rec.owner with _ | p
    · rw [hpold] at hok
      rcases hpnew : alGet s.primary_names new_owner with _ | q
      · rw [hpnew] at hok
        simp only [Option.isNone_none, if_true, Except.ok.injEq] at hok
        subst hok
        exact ⟨alGet_insert_self .., by simp, by simp,
          fun _ => alGet_insert_self .., by simp⟩
      · rw [hpnew] at hok
        simp only [Option.isNone_some, Bool.false_eq_true, if_false,
          Except.ok.injEq] at hok
        subst hok
        exact ⟨alGet_insert_self .., by simp, by simp, by simp,
          fun q2 hq2 => by obtain rfl := Option.some.inj hq2; exact hpnew⟩
    · by_cases hpn : p = n
      · subst hpn
        have hrn : alGet (alRemove s.primary_names rec.owner) new_owner =
            alGet s.primary_names new_owner := alGet_remove_ne _ _ _ hne_on
        rcases hpnew : alGet s.primary_names new_owner with _ | q
        · rw [hpnew] at hrn
          simp only [hpold, eq_self_iff_true, if_true, hrn,
            Option.isNone_none, Except.ok.injEq] at hok
          subst hok
          refine ⟨alGet_insert_self .., ?_, ?_,
            fun _ => alGet_insert_self .., by simp⟩
          · intro _
            rw [alGet_insert_ne _ _ _ _ hneq]
            exact alGet_remove_self hnd
          · intro p1 hp1 hne1
            exact absurd (Option.some.inj hp1).symm hne1
        · rw [hpnew] at hrn
          simp only [hpold, eq_self_iff_true, if_true, hrn,
            Option.isNone_some, Bool.false_eq_true, if_false,
            Except.ok.injEq] at hok
          subst hok
          refine ⟨alGet_insert_self .., fun _ => alGet_remove_self hnd,
            ?_, by simp, ?_⟩
          · intro p1 hp1 hne1
            exact absurd (Option.some.inj hp1).symm hne1
          · intro q2 hq2
            obtain rfl := Option.some.inj hq2
            exact hrn
      · rcases hpnew : alGet s.primary_names new_owner with _ | q
        · simp only [hpold, if_neg hpn, hpnew, Option.isNone_none, if_true,
            Except.ok.injEq] at hok
          subst hok
          refine ⟨alGet_insert_self .., ?_, ?_,
            fun _ => alGet_insert_self .., by simp⟩
          · intro hcontra
            exact absurd (Option.some.inj hcontra) hpn
          · intro p1 hp1 _
            obtain rfl := Option.some.inj hp1
            rw [alGet_insert_ne _ _ _ _ hneq]
            exact hpold
        · simp only [hpold, if_neg hpn, hpnew, Option.isNone_some,
            Bool.false_eq_true, if_false, Except.ok.injEq] at hok
          subst hok
          refine ⟨alGet_insert_self .., ?_, ?_, by simp, ?_⟩
          · intro hcontra
            exact absurd (Option.some.inj hcontra) hpn
          · intro p1 hp1 _
            obtain rfl := Option.some.inj hp1
            exact hpold
          · intro q2 hq2
            obtain rfl := Option.some.inj hq2
            exact hpnew
  · intro hnone
    simp [Sol.transfer_name, hnone]
  · intro rec hrec hno
    simp [Sol.transfer_name, hrec, hno]
  · intro rec hrec howner L2 hok
    simp only [Sol.transfer_name, hrec, howner] at hok
    rw [if_neg (by simp)] at hok
    simp only [Except.ok.injEq] at hok
    subst hok
    exact ⟨rfl, rfl⟩

/-- A NEAR state where `bob` owns `abc` and has it as primary (C6 witness). -/
def c6NearState : Near.ContractState :=
  { owner := "adm", treasury := "tre", registration_fee := 10, referrer_bps := 300,
    names := [(Near.name_key "abc",
      { owner := "bob", resolved := some "bob", updated_at := 1 })],
    nonces := [], coin_fees := [], primary_names := [("bob", "abc")],
    relayers := [], require_allowlisted_relayer := false }

/-- The state after `bob` transfers `abc` to `eve` at time 9 (C6 witness). -/
def c6NearState2 : Near.ContractState :=
  { owner := "adm", treasury := "tre", registration_fee := 10, referrer_bps := 300,
    names := [(Near.name_key "abc",
      { owner := "eve", resolved := some "bob", updated_at := 9 })],
    nonces := [], coin_fees := [], primary_names := [("eve", "abc")],
    relayers := [], require_allowlisted_relayer := false }

/-- An empty Solana ledger used to instantiate C6's Solana component. -/
def c6SolLedger : Sol.Ledger :=
  { config :=
      { admin := 1, pending_admin := none, treasury := 9,
        registration_fee := 10, referrer_bps := 300,
        require_allowlisted_relayer := false },
    nameRecords := [], primaryNames := [], relayerEntries := [], tokenFees := [] }

/-- Witness for C6 (amended): concrete NEAR transfer moving the record,
clearing the old owner's primary and giving the new owner the name. -/
theorem C6_transfer_name_witness :
    alGet c6NearState2.names (Near.name_key "abc") =
      some { owner := "eve", resolved := some "bob", updated_at := 9 }
    ∧ alGet c6NearState2.primary_names "bob" = none
    ∧ alGet c6NearState2.primary_names "eve" = some "abc" := by
  have h := (C6_transfer_name c6NearState "bob" "abc" "eve" 9 c6SolLedger 0 "xyz" 0 0
      (by decide) (by decide)).2.2.1
    { owner := "bob", resolved := some "bob", updated_at := 1 }
    (by decide) (by decide) (by decide) c6NearState2 (by decide)
  exact ⟨h.1, h.2.1 (by decide), h.2.2.2.1 (by decide)⟩

/-- C6 counterexample: in the Solana implementation a successful
`transfer_name` leaves the old owner's primary-name entry in place (still
pointing at the transferred name) and never sets the new owner's primary —
contradicting the claim that the transfer clears the old owner's entry when
the name was their primary and sets the new owner's primary when they had
none. -/
theorem C6_counterexample :
    (Sol.transfer_name
      { config :=
          { admin := 1, pending_admin := none, treasury := 9,
            registration_fee := 10, referrer_bps := 300,
            require_allowlisted_relayer := false },
        nameRecords :=
          [("abc", { name := "abc", owner := 5, resolved := 5, updated_at := 1 })],
        primaryNames := [(5, { owner := 5, name := "abc" })],
        relayerEntries := [], tokenFees := [] } 5 "abc" 6 9).toOption.map
      (fun L2 => (alGet L2.nameRecords "abc", alGet L2.primaryNames 5,
        alGet L2.primaryNames 6)) =
    some (some { name := "abc", owner := 6, resolved := 5, updated_at := 9 },
          some { owner := 5, name := "abc" }, none) := by
  decide

/-! ### C1, C3, C4, C5: concrete divergences -/

/-- NEAR state accepting FT payments of 1000 on `tok.near` (C1). -/
def c1State : Near.ContractState :=
  { owner := "adm", treasury := "tre", registration_fee := 1000, referrer_bps := 300,
    names := [], nonces := [], coin_fees := [("tok.near", 1000)],
    primary_names := [], relayers := [], require_allowlisted_relayer := false }

/-- C1 (divergence witnessed on the code): the NEAR FT registration commits
the `Record` and the primary-name entry in the same step that merely issues
the outgoing `ft_transfer` calls, and the contract registers no callback on
them (`ft_settlement_state`), so after the settlement transfer fails the
Record is still there — the Record is not committed "only after the external
payment is confirmed". -/
theorem C1_record_committed_before_settlement :
    (Near.ft_on_transfer c1State "tok.near" "alice" 1000
        { action := "register", name := "mike", owner := some "carol",
          relayer := some "ref", deadline := some 0, nonce := some 0 } 5).toOption.map
      (fun out => (out.ftTransfers,
        alGet (Near.ft_settlement_state out false).names (Near.name_key "mike"),
        alGet (Near.ft_settlement_state out false).primary_names "carol")) =
    some ([("ref", 30), ("tre", 970)],
          some { owner := "carol", resolved := some "carol", updated_at := 5 },
          some "mike") := by
  decide

/-- Solana ledger with relayer 4 allowlisted, fee 1000, bps 500 (C3). -/
def c3Ledger : Sol.Ledger :=
  { config :=
      { admin := 1, pending_admin := none, treasury := 9,
        registration_fee := 1000, referrer_bps := 500,
        require_allowlisted_relayer := false },
    nameRecords := [], primaryNames := [], relayerEntries := [4], tokenFees := [] }

/-- A meta-registration request with nonce 0 (C3). -/
def c3Params : Sol.RegisterWithSigParams :=
  { name := "alice", owner := 5, relayer := 4, currency := none,
    amount := 0, deadline := 100, nonce := 0 }

/-- C3 (divergence witnessed on the code): the Solana
`register_name_with_signature` never reads `params.nonce` and stores no
per-name counter — a request with nonce 7 is accepted on a fresh ledger
exactly like one with nonce 0, so acceptance is not conditioned on the nonce
equalling any stored counter and no counter is incremented. -/
theorem C3_nonce_never_checked :
    (Sol.register_name_with_signature c3Ledger 4 100000 c3Params
        (List.replicate 64 1) 5).toOption.isSome = true
    ∧ Sol.register_name_with_signature c3Ledger 4 100000
        { c3Params with nonce := 7 } (List.replicate 64 1) 5 =
      Sol.register_name_with_signature c3Ledger 4 100000 c3Params
        (List.replicate 64 1) 5 := by
  decide

/-- Solana ledger with relayer 4 allowlisted (C4). -/
def c4Ledger : Sol.Ledger :=
  { config :=
      { admin := 1, pending_admin := none, treasury := 9,
        registration_fee := 1000, referrer_bps := 500,
        require_allowlisted_relayer := false },
    nameRecords := [], primaryNames := [], relayerEntries := [4], tokenFees := [] }

/-- A meta-registration request (C4). -/
def c4Params : Sol.RegisterWithSigParams :=
  { name := "carol", owner := 5, relayer := 4, currency := none,
    amount := 0, deadline := 100, nonce := 0 }

/-- NEAR state for the C4 meta-transaction. -/
def c4NearState : Near.ContractState :=
  { owner := "adm", treasury := "tre", registration_fee := 1000, referrer_bps := 300,
    names := [], nonces := [], coin_fees := [], primary_names := [],
    relayers := [], require_allowlisted_relayer := false }

/-- C4 (divergence witnessed on the code): signatures are never verified
against any hash — Solana's handler only checks `signature.len() == 64`, so
two distinct 64-byte signatures over the same request are both accepted with
identical results; NEAR's `register_with_sig` binds `_signature` and never
reads it, accepting even an empty signature. -/
theorem C4_signature_content_ignored :
    Sol.register_name_with_signature c4Ledger 4 100000 c4Params
        (List.replicate 64 1) 5 =
      Sol.register_name_with_signature c4Ledger 4 100000 c4Params
        (List.replicate 64 2) 5
    ∧ (Sol.register_name_with_signature c4Ledger 4 100000 c4Params
        (List.replicate 64 1) 5).toOption.isSome = true
    ∧ (Near.register_with_sig c4NearState "rel" 2000 5 "carl" "own" "rel"
        1000 100 0 []).toOption.isSome = true := by
  decide

/-- Solana ledger with fee 1000 and bps 500 (C5). -/
def c5Ledger : Sol.Ledger :=
  { config :=
      { admin := 1, pending_admin := none, treasury := 9,
        registration_fee := 1000, referrer_bps := 500,
        require_allowlisted_relayer := false },
    nameRecords := [], primaryNames := [], relayerEntries := [4], tokenFees := [] }

/-- A meta-registration request (C5). -/
def c5Params64 : Sol.RegisterWithSigParams :=
  { name := "dave", owner := 5, relayer := 4, currency := none,
    amount := 0, deadline := 100, nonce := 0 }

/-- NEAR state with fee 1000 (C5). -/
def c5NearState : Near.ContractState :=
  { owner := "adm", treasury := "tre", registration_fee := 1000, referrer_bps := 300,
    names := [], nonces := [], coin_fees := [], primary_names := [],
    relayers := [], require_allowlisted_relayer := false }

/-- C5 (divergence witnessed on the code): with fee 1000 and referrer bps
500, the Solana signature path computes a referrer share of 50 but transfers
only the 950 treasury share — total moved 950, not the configured fee 1000,
and the referrer receives nothing; the NEAR direct path transfers the whole
attached deposit (1500), more than the configured fee 1000. -/
theorem C5_fee_exactness_violated :
    (Sol.register_name_with_signature c5Ledger 4 100000 c5Params64
        (List.replicate 64 1) 5).toOption.map (fun r => paidTotal r.2) = some 950
    ∧ Sol.sol_referrer_amount 1000 500 = 50
    ∧ (950 : Nat) ≠ 1000
    ∧ (Near.register c5NearState "bob" "alice-name" 1500 7).toOption.map
        (fun r => paidTotal r.2) = some 1500
    ∧ c5NearState.registration_fee = 1000
    ∧ (1500 : Nat) ≠ 1000 := by
  decide
